import Mathlib

/-!
Verification of the core pipeline of the English-Worksheets-Generator app
(`streamlit_app.py`): score classification, wide-to-long table normalisation,
curriculum retrieval, skill-instruction selection, and answer-key splitting.

Python floats are modelled as rationals extended with a NaN element whose
comparisons are always false (IEEE semantics; no arithmetic is performed on
scores, so rounding is irrelevant).  Python strings are modelled as `String`
or `List Char`; pandas data frames as a list of column names plus rows given
as association lists from column name to cell value.
-/

/-- Model of a Python float: a rational number or NaN. -/
inductive PFloat where
  | nan : PFloat
  | val : ℚ → PFloat
deriving DecidableEq

/-- Python `<` on floats: any comparison involving NaN is false. -/
def pflt : PFloat → PFloat → Bool
  | PFloat.val a, PFloat.val b => decide (a < b)
  | _, _ => false

/-- `classify_level` from `streamlit_app.py`:
`if score < low_thr: "Low" elif score < high_thr: "Medium" else: "High"`. -/
def classify_level (score low_thr high_thr : PFloat) : String :=
  if pflt score low_thr then "Low"
  else if pflt score high_thr then "Medium"
  else "High"

/-- Model of the `Process student data` button handler (`main`, lines 568-577):
the slider thresholds are passed straight to `classify_level` for every score,
with no validity check relating `low_thr` and `high_thr`. -/
def process_student_data (low_thr high_thr : ℚ) (scores : List ℚ) : List String :=
  scores.map (fun x => classify_level (PFloat.val x) (PFloat.val low_thr) (PFloat.val high_thr))

/-- One cell of a pandas data frame: a string, an integer, or a missing
value (NaN / None). -/
inductive Val where
  | str : String → Val
  | int : Int → Val
  | na : Val
deriving DecidableEq

/-- Python `str(v)` of a cell, as pandas `astype(str)` produces it. -/
def valToStr : Val → String
  | Val.str s => s
  | Val.int n => toString n
  | Val.na => "nan"

/-- `pd.notna`: false exactly on missing values. -/
def notna : Val → Bool
  | Val.na => false
  | _ => true

/-- A data frame: column names plus rows as association lists from column
name to cell value. -/
structure DataFrame where
  cols : List String
  rows : List (List (String × Val))
deriving DecidableEq

/-- Cell access `row[col]`; a missing key reads as NaN. -/
def cell (r : List (String × Val)) (c : String) : Val :=
  match r.lookup c with
  | some v => v
  | none => Val.na

/-- `DataFrame.melt` with `id_vars`, `value_vars`, `var_name`, `value_name`:
pandas emits the blocks of one `value_vars` column after another, each block
listing the input rows in order. -/
def melt (df : DataFrame) (id_vars value_vars : List String)
    (var_name value_name : String) : DataFrame :=
  { cols := id_vars ++ [var_name, value_name],
    rows := value_vars.flatMap (fun v => df.rows.map (fun r =>
      id_vars.map (fun c => (c, cell r c)) ++
        [(var_name, Val.str v), (value_name, cell r v)])) }

/-- `DataFrame.rename(columns=...)` applied as a function on column names. -/
def renameCols (f : String → String) (df : DataFrame) : DataFrame :=
  { cols := df.cols.map f,
    rows := df.rows.map (fun r => r.map (fun p => (f p.1, p.2))) }

/-- The column-rename mapping used by `transform_thesis_format`. -/
def renameMap (c : String) : String :=
  if c = "StudentNumber" then "student_id"
  else if c = "StudentName" then "student_name"
  else c

/-- The six wide-schema columns expected by `transform_thesis_format`. -/
def thesis_cols : List String :=
  ["StudentNumber", "StudentName", "LanguageFunction",
   "ReadingComprehension", "Grammar", "Writing"]

/-- The four skill columns melted into long format. -/
def skill_cols : List String :=
  ["LanguageFunction", "ReadingComprehension", "Grammar", "Writing"]

/-- `transform_thesis_format` from `streamlit_app.py`: melt the wide thesis
schema into long format and rename the id columns, or return the input
unchanged when the wide schema is not fully present. -/
def transform_thesis_format (df : DataFrame) : DataFrame :=
  if thesis_cols.all (fun c => df.cols.contains c) then
    renameCols renameMap
      (melt df ["StudentNumber", "StudentName"] skill_cols "skill" "score")
  else df

/-- The long-format row that the melt produces for input row `r` and skill
column `sk`. -/
def canonicalRow (r : List (String × Val)) (sk : String) : List (String × Val) :=
  [("student_id", cell r "StudentNumber"),
   ("student_name", cell r "StudentName"),
   ("skill", Val.str sk),
   ("score", cell r sk)]

/-- Python `str.lower()`, character-wise as it acts on ASCII text. -/
def lowerStr (s : String) : String :=
  String.mk (s.data.map Char.toLower)

/-- The row predicate of `build_rag_context`: grade matches as a string and
skill matches case-insensitively. -/
def ragRowMatch (skill : String) (curriculum_grade : Int)
    (r : List (String × Val)) : Bool :=
  valToStr (cell r "grade") == toString curriculum_grade &&
    lowerStr (valToStr (cell r "skill")) == lowerStr skill

/-- The bullet `build_rag_context` builds for one matching row: grade and
skill, then every other non-missing field as `name: value`, joined
with " | ". -/
def ragBullet (r : List (String × Val)) : String :=
  "- Grade " ++ valToStr (cell r "grade") ++
    ", Skill " ++ valToStr (cell r "skill") ++ ": " ++
    String.intercalate " | "
      ((r.filter (fun p => p.1 != "grade" && p.1 != "skill" && notna p.2)).map
        (fun p => p.1 ++ ": " ++ valToStr p.2))

/-- `build_rag_context` from `streamlit_app.py`: guard for a present table
with `grade` and `skill` columns, filter by grade and skill, return an empty
string for an empty match, otherwise join the first 8 bullets. -/
def build_rag_context (curriculum_df : Option DataFrame) (skill : String)
    (curriculum_grade : Int) : String :=
  match curriculum_df with
  | none => ""
  | some df =>
    if df.cols.contains "grade" && df.cols.contains "skill" then
      let subset := df.rows.filter (ragRowMatch skill curriculum_grade)
      if subset.isEmpty then ""
      else String.intercalate "\n" ((subset.map ragBullet).take 8)
    else ""

/-- Retrieval as §4.4 of the spec words it: keep exactly the matching rows in
original order, format each as a bullet, and keep at most the first 8,
joined by newlines — with no special case for an empty match. -/
def retrieval_spec (df : DataFrame) (skill : String) (target_grade : Int) : String :=
  String.intercalate "\n"
    (((df.rows.filter (ragRowMatch skill target_grade)).map ragBullet).take 8)

/-- `list.isPrefixOf` specialised to characters, named to keep the
development self-contained. -/
def isPrefOf : List Char → List Char → Bool
  | [], _ => true
  | _ :: _, [] => false
  | a :: as, b :: bs => a == b && isPrefOf as bs

/-- Python `haystack.find(needle)` (lowest match index), as an `Option`. -/
def findSub (n : List Char) : List Char → Option Nat
  | [] => if isPrefOf n [] then some 0 else none
  | c :: t => if isPrefOf n (c :: t) then some 0 else (findSub n t).map (· + 1)

/-- Python `needle in haystack`. -/
def strContains (hay needle : List Char) : Bool :=
  (findSub needle hay).isSome

/-- Skill instruction for grammar skills (`build_skill_instruction`). -/
def grammarInstr : String :=
  "Focus the questions on grammar usage, sentence structure, verb tenses, and error-correction style MCQs, appropriate for the target grade."

/-- Skill instruction for reading skills. -/
def readingInstr : String :=
  "Focus the questions on reading comprehension: main idea, details, inference, and vocabulary in context related to the passage."

/-- Skill instruction for writing skills. -/
def writingInstr : String :=
  "Focus the questions on writing skills: organising ideas, choosing correct connectors, and building clear sentences."

/-- Skill instruction for language-function skills. -/
def languageFunctionInstr : String :=
  "Focus the questions on language functions such as making requests, giving advice, asking for information, agreeing and disagreeing, etc."

/-- Fallback skill instruction. -/
def genericInstr : String :=
  "Make sure the questions clearly practise the given skill in an age-appropriate way."

/-- `build_skill_instruction` from `streamlit_app.py`: lowercase the skill
name and test the keywords in source order, stopping at the first match. -/
def build_skill_instruction (skill : String) : String :=
  let s := skill.data.map Char.toLower
  if strContains s "grammar".data then grammarInstr
  else if strContains s "reading".data then readingInstr
  else if strContains s "writing".data then writingInstr
  else if strContains s "languagefunction".data || strContains s "language function".data then
    languageFunctionInstr
  else genericInstr

/-- Python `str.strip()`: drop whitespace from both ends. -/
def pythonStrip (l : List Char) : List Char :=
  ((l.dropWhile Char.isWhitespace).reverse.dropWhile Char.isWhitespace).reverse

/-- The literal marker `split_worksheet_and_answer` searches for. -/
def answerMarker : List Char := "ANSWER KEY:".data

/-- The placeholder answer key used when the marker is absent. -/
def answerPlaceholder : List Char :=
  "ANSWER KEY:\n(Not clearly provided by the model.)".data

/-- `split_worksheet_and_answer` from `streamlit_app.py`: find the marker in
the uppercased text; absent, return the stripped text and a placeholder;
present at `idx`, strip the two halves cut at `idx`. -/
def split_worksheet_and_answer (text : List Char) : List Char × List Char :=
  match findSub answerMarker (text.map Char.toUpper) with
  | none => (pythonStrip text, answerPlaceholder)
  | some idx => (pythonStrip (text.take idx), pythonStrip (text.drop idx))

/-- `markerAt l j`: the answer marker occurs, case-insensitively, at
position `j` of `l`. -/
def markerAt (l : List Char) (j : Nat) : Bool :=
  isPrefOf answerMarker ((l.map Char.toUpper).drop j)

/-- Wide-schema sample table with one student (§8 of the spec). -/
def dfWide : DataFrame :=
  { cols := thesis_cols,
    rows := [[("StudentNumber", Val.int 1), ("StudentName", Val.str "Amal"),
      ("LanguageFunction", Val.int 80), ("ReadingComprehension", Val.int 60),
      ("Grammar", Val.int 40), ("Writing", Val.int 90)]] }

/-- Already-canonical sample table (long format). -/
def dfLong : DataFrame :=
  { cols := ["student_id", "student_name", "skill", "score"],
    rows := [[("student_id", Val.int 1), ("student_name", Val.str "Amal"),
      ("skill", Val.str "Grammar"), ("score", Val.int 40)]] }

/-- Wide-schema sample table carrying an extra column. -/
def dfExtra : DataFrame :=
  { cols := thesis_cols ++ ["Notes"],
    rows := [[("StudentNumber", Val.int 1), ("StudentName", Val.str "Amal"),
      ("LanguageFunction", Val.int 80), ("ReadingComprehension", Val.int 60),
      ("Grammar", Val.int 40), ("Writing", Val.int 90),
      ("Notes", Val.str "left-handed")]] }

/-- Curriculum sample table with two Grammar rows for grade 3 (§8). -/
def dfCurr : DataFrame :=
  { cols := ["grade", "skill", "topic"],
    rows := [[("grade", Val.int 3), ("skill", Val.str "Grammar"),
      ("topic", Val.str "verb tenses")],
      [("grade", Val.int 3), ("skill", Val.str "Grammar"),
      ("topic", Val.str "articles")]] }

/-- Reference table lacking the `grade` column. -/
def dfNoGrade : DataFrame :=
  { cols := ["skill", "topic"],
    rows := [[("skill", Val.str "Grammar"), ("topic", Val.str "verb tenses")]] }

/-- Characterisation of `transform_thesis_format` on a wide-schema table,
shared by the normaliser claims. -/
lemma transform_rows_eq (df : DataFrame)
    (h : thesis_cols.all (fun c => df.cols.contains c) = true) :
    (transform_thesis_format df).cols = ["student_id", "student_name", "skill", "score"] ∧
    (transform_thesis_format df).rows =
      skill_cols.flatMap (fun sk => df.rows.map (fun r => canonicalRow r sk)) := by
  unfold transform_thesis_format
  rw [if_pos h]
  constructor
  · rfl
  · simp only [renameCols, melt, skill_cols, List.flatMap_cons, List.flatMap_nil,
      List.map_append, List.map_map, List.append_nil]
    rfl

/-- C1: with valid thresholds `low < high`, `classify_level` returns `"Low"`
exactly when `score < low`, `"Medium"` exactly when `low ≤ score < high`, and
`"High"` exactly when `score ≥ high`; boundary scores go to the higher tier. -/
theorem C1_classify_level_tiers (s l h : ℚ) (hlh : l < h) :
    (classify_level (PFloat.val s) (PFloat.val l) (PFloat.val h) = "Low" ↔ s < l) ∧
    (classify_level (PFloat.val s) (PFloat.val l) (PFloat.val h) = "Medium" ↔ l ≤ s ∧ s < h) ∧
    (classify_level (PFloat.val s) (PFloat.val l) (PFloat.val h) = "High" ↔ h ≤ s) := by
  by_cases h1 : s < l
  · have hc : classify_level (PFloat.val s) (PFloat.val l) (PFloat.val h) = "Low" := by
      simp [classify_level, pflt, h1]
    rw [hc]
    refine ⟨by simp [h1], ?_, ?_⟩
    · exact ⟨fun he => absurd he (by decide),
        fun hls => absurd h1 (not_lt.mpr hls.1)⟩
    · exact ⟨fun he => absurd he (by decide),
        fun hhs => absurd h1 (not_lt.mpr (le_trans (le_of_lt hlh) hhs))⟩
  · by_cases h2 : s < h
    · have hc : classify_level (PFloat.val s) (PFloat.val l) (PFloat.val h) = "Medium" := by
        simp [classify_level, pflt, h1, h2]
      rw [hc]
      exact ⟨⟨fun he => absurd he (by decide), fun hls => absurd hls h1⟩,
        by simp [not_lt.mp h1, h2],
        ⟨fun he => absurd he (by decide), fun hhs => absurd h2 (not_lt.mpr hhs)⟩⟩
    · have hc : classify_level (PFloat.val s) (PFloat.val l) (PFloat.val h) = "High" := by
        simp [classify_level, pflt, h1, h2]
      rw [hc]
      exact ⟨⟨fun he => absurd he (by decide), fun hls => absurd hls h1⟩,
        ⟨fun he => absurd he (by decide), fun hls => absurd hls.2 h2⟩,
        by simp [not_lt.mp h2]⟩

theorem C1_classify_level_tiers_witness :
    ((50 : ℚ) < 75 ∧
      classify_level (PFloat.val 50) (PFloat.val 50) (PFloat.val 75) = "Medium") ∧
    classify_level (PFloat.val 75) (PFloat.val 50) (PFloat.val 75) = "High" :=
  ⟨⟨by norm_num,
      ((C1_classify_level_tiers 50 50 75 (by norm_num)).2.1).mpr (by norm_num)⟩,
    ((C1_classify_level_tiers 75 50 75 (by norm_num)).2.2).mpr (by norm_num)⟩

/-- C9: a NaN score fails both threshold comparisons, so `classify_level`
returns `"High"` for every pair of thresholds. -/
theorem C9_classify_level_nan (l h : PFloat) :
    classify_level PFloat.nan l h = "High" := by
  cases l <;> cases h <;> rfl

/-- C2: the UI never validates the thresholds; with the invalid configuration
`low_thr = 75 ≥ high_thr = 50` the button handler still classifies every
score, here labelling a score of 60 as `"Low"`, instead of rejecting the
configuration before classification. -/
theorem C2_no_threshold_validation :
    process_student_data 75 50 [60] = ["Low"] := by
  norm_num [process_student_data, classify_level, pflt]

/-- C3: with the full wide schema present, the normaliser emits the four
canonical columns and exactly four rows per input row — one per skill column,
carrying that row's id and name, skill set to the column name and score to
its value; without the full wide schema the input is returned unchanged. -/
theorem C3_transform_thesis_format (df : DataFrame) :
    (thesis_cols.all (fun c => df.cols.contains c) = true →
      (transform_thesis_format df).cols = ["student_id", "student_name", "skill", "score"] ∧
      (transform_thesis_format df).rows =
        skill_cols.flatMap (fun sk => df.rows.map (fun r => canonicalRow r sk)) ∧
      (transform_thesis_format df).rows.length = 4 * df.rows.length) ∧
    (thesis_cols.all (fun c => df.cols.contains c) = false →
      transform_thesis_format df = df) := by
  constructor
  · intro h
    obtain ⟨hc, hr⟩ := transform_rows_eq df h
    refine ⟨hc, hr, ?_⟩
    rw [hr]
    simp only [skill_cols, List.flatMap_cons, List.flatMap_nil, List.append_nil,
      List.length_append, List.length_map]
    omega
  · intro h
    unfold transform_thesis_format
    rw [if_neg]
    intro hc
    rw [h] at hc
    exact Bool.false_ne_true hc

theorem C3_transform_thesis_format_witness :
    (thesis_cols.all (fun c => dfWide.cols.contains c) = true ∧
      (transform_thesis_format dfWide).rows.length = 4 * dfWide.rows.length) ∧
    (thesis_cols.all (fun c => dfLong.cols.contains c) = false ∧
      transform_thesis_format dfLong = dfLong) :=
  ⟨⟨by decide, ((C3_transform_thesis_format dfWide).1 (by decide)).2.2⟩,
    ⟨by decide, (C3_transform_thesis_format dfLong).2 (by decide)⟩⟩

/-- C10: with the wide schema present, every output row of the normaliser
carries only the four canonical columns — a lookup of any other column name
(in particular any extra input column) fails — while no row is dropped. -/
theorem C10_transform_drops_extra_columns (df : DataFrame)
    (h : thesis_cols.all (fun c => df.cols.contains c) = true) :
    (transform_thesis_format df).cols = ["student_id", "student_name", "skill", "score"] ∧
    (∀ r ∈ (transform_thesis_format df).rows, ∀ c : String,
      c ∉ ["student_id", "student_name", "skill", "score"] → r.lookup c = none) ∧
    (transform_thesis_format df).rows.length = 4 * df.rows.length := by
  obtain ⟨hc, hr⟩ := transform_rows_eq df h
  refine ⟨hc, ?_, ?_⟩
  · intro r hrmem c hcmem
    rw [hr, List.mem_flatMap] at hrmem
    obtain ⟨sk, _, hr2⟩ := hrmem
    rw [List.mem_map] at hr2
    obtain ⟨r0, _, rfl⟩ := hr2
    simp only [List.mem_cons, List.not_mem_nil, or_false] at hcmem
    push_neg at hcmem
    obtain ⟨h1, h2, h3, h4⟩ := hcmem
    have e1 : (c == "student_id") = false := beq_eq_false_iff_ne.mpr h1
    have e2 : (c == "student_name") = false := beq_eq_false_iff_ne.mpr h2
    have e3 : (c == "skill") = false := beq_eq_false_iff_ne.mpr h3
    have e4 : (c == "score") = false := beq_eq_false_iff_ne.mpr h4
    simp [canonicalRow, List.lookup, e1, e2, e3, e4]
  · rw [hr]
    simp only [skill_cols, List.flatMap_cons, List.flatMap_nil, List.append_nil,
      List.length_append, List.length_map]
    omega

theorem C10_transform_drops_extra_columns_witness :
    thesis_cols.all (fun c => dfExtra.cols.contains c) = true ∧
    (transform_thesis_format dfExtra).cols = ["student_id", "student_name", "skill", "score"] ∧
    (transform_thesis_format dfExtra).rows.length = 4 * dfExtra.rows.length :=
  ⟨by decide, (C10_transform_drops_extra_columns dfExtra (by decide)).1,
    (C10_transform_drops_extra_columns dfExtra (by decide)).2.2⟩

/-- C4: on a reference table with `grade` and `skill` columns, retrieval
agrees with the spec's description — filter by stringified grade equality and
case-insensitive skill equality, format each matching row as a bullet in
original order, keep at most the first 8. -/
theorem C4_build_rag_context_matches_spec (df : DataFrame) (skill : String) (g : Int)
    (h1 : df.cols.contains "grade" = true) (h2 : df.cols.contains "skill" = true) :
    build_rag_context (some df) skill g = retrieval_spec df skill g := by
  have hval : build_rag_context (some df) skill g =
      (if (df.rows.filter (ragRowMatch skill g)).isEmpty then ""
       else String.intercalate "\n"
         (((df.rows.filter (ragRowMatch skill g)).map ragBullet).take 8)) := by
    simp only [build_rag_context]
    rw [h1, h2]
    rfl
  rw [hval]
  unfold retrieval_spec
  by_cases he : (df.rows.filter (ragRowMatch skill g)).isEmpty
  · have hnil : df.rows.filter (ragRowMatch skill g) = [] := List.isEmpty_iff.mp he
    rw [if_pos he, hnil]
    rfl
  · rw [if_neg he]

theorem C4_build_rag_context_matches_spec_witness :
    (dfCurr.cols.contains "grade" = true ∧ dfCurr.cols.contains "skill" = true) ∧
    build_rag_context (some dfCurr) "grammar" 3 = retrieval_spec dfCurr "grammar" 3 ∧
    build_rag_context (some dfCurr) "grammar" 3 =
      "- Grade 3, Skill Grammar: topic: verb tenses\n- Grade 3, Skill Grammar: topic: articles" :=
  ⟨⟨by decide, by decide⟩,
    C4_build_rag_context_matches_spec dfCurr "grammar" 3 (by decide) (by decide),
    by decide⟩

/-- C5: retrieval degrades to an empty context instead of failing — an absent
table yields `""`, and so does any table missing the `grade` or the `skill`
column; the embedding is a total function, so no exception is possible. -/
theorem C5_rag_empty_on_bad_input (skill : String) (g : Int) :
    build_rag_context none skill g = "" ∧
    ∀ df : DataFrame,
      (df.cols.contains "grade" = false ∨ df.cols.contains "skill" = false) →
      build_rag_context (some df) skill g = "" := by
  refine ⟨rfl, ?_⟩
  intro df h
  rcases h with h | h
  · have hb : (df.cols.contains "grade" && df.cols.contains "skill") = false := by
      rw [h]
      exact Bool.false_and _
    simp only [build_rag_context, hb]
    rfl
  · have hb : (df.cols.contains "grade" && df.cols.contains "skill") = false := by
      rw [h]
      exact Bool.and_false _
    simp only [build_rag_context, hb]
    rfl

theorem C5_rag_empty_on_bad_input_witness :
    dfNoGrade.cols.contains "grade" = false ∧
    build_rag_context (some dfNoGrade) "Grammar" 3 = "" ∧
    build_rag_context none "Grammar" 3 = "" :=
  ⟨by decide,
    (C5_rag_empty_on_bad_input "Grammar" 3).2 dfNoGrade (Or.inl (by decide)),
    (C5_rag_empty_on_bad_input "Grammar" 3).1⟩

/-- C8: the skill instruction is chosen by case-insensitive substring search
in the fixed order grammar, reading, writing, language-function, generic
fallback, and the first matching keyword wins — in particular a grammar match
takes priority regardless of any other keyword also occurring. -/
theorem C8_build_skill_instruction_priority (skill : String) :
    (strContains (skill.data.map Char.toLower) "grammar".data = true →
      build_skill_instruction skill = grammarInstr) ∧
    (strContains (skill.data.map Char.toLower) "grammar".data = false →
      strContains (skill.data.map Char.toLower) "reading".data = true →
      build_skill_instruction skill = readingInstr) ∧
    (strContains (skill.data.map Char.toLower) "grammar".data = false →
      strContains (skill.data.map Char.toLower) "reading".data = false →
      strContains (skill.data.map Char.toLower) "writing".data = true →
      build_skill_instruction skill = writingInstr) ∧
    (strContains (skill.data.map Char.toLower) "grammar".data = false →
      strContains (skill.data.map Char.toLower) "reading".data = false →
      strContains (skill.data.map Char.toLower) "writing".data = false →
      (strContains (skill.data.map Char.toLower) "languagefunction".data ||
        strContains (skill.data.map Char.toLower) "language function".data) = true →
      build_skill_instruction skill = languageFunctionInstr) ∧
    (strContains (skill.data.map Char.toLower) "grammar".data = false →
      strContains (skill.data.map Char.toLower) "reading".data = false →
      strContains (skill.data.map Char.toLower) "writing".data = false →
      (strContains (skill.data.map Char.toLower) "languagefunction".data ||
        strContains (skill.data.map Char.toLower) "language function".data) = false →
      build_skill_instruction skill = genericInstr) := by
  unfold build_skill_instruction
  refine ⟨?_, ?_, ?_, ?_, ?_⟩ <;> intros <;> simp [*]

theorem C8_build_skill_instruction_priority_witness :
    (strContains ("Grammar Reading".data.map Char.toLower) "grammar".data = true ∧
      strContains ("Grammar Reading".data.map Char.toLower) "reading".data = true) ∧
    build_skill_instruction "Grammar Reading" = grammarInstr :=
  ⟨⟨by decide, by decide⟩,
    (C8_build_skill_instruction_priority "Grammar Reading").1 (by decide)⟩

/-- A prefix of a list is still a prefix after appending. -/
lemma isPrefOf_append (n l₁ l₂ : List Char) (h : isPrefOf n l₁ = true) :
    isPrefOf n (l₁ ++ l₂) = true := by
  induction n generalizing l₁ with
  | nil => rfl
  | cons a as ih =>
    cases l₁ with
    | nil => exact Bool.noConfusion h
    | cons b bs =>
      simp only [isPrefOf, Bool.and_eq_true] at h
      simp only [List.cons_append, isPrefOf, Bool.and_eq_true]
      exact ⟨h.1, ih bs h.2⟩

/-- A Boolean prefix determines the initial segment. -/
lemma isPrefOf_take_eq (n : List Char) : ∀ m : List Char, isPrefOf n m = true →
    m.take n.length = n := by
  induction n with
  | nil =>
    intro m _
    rfl
  | cons a as ih =>
    intro m h
    cases m with
    | nil => exact Bool.noConfusion h
    | cons b bs =>
      simp only [isPrefOf, Bool.and_eq_true, beq_iff_eq] at h
      rw [List.length_cons, List.take_succ_cons, ih bs h.2, h.1]

/-- `findSub` returns a position where the pattern occurs, and the least one. -/
lemma findSub_some (n : List Char) : ∀ (h : List Char) (i : Nat), findSub n h = some i →
    isPrefOf n (h.drop i) = true ∧ ∀ j < i, isPrefOf n (h.drop j) = false := by
  intro h
  induction h with
  | nil =>
    intro i he
    unfold findSub at he
    by_cases hp : isPrefOf n [] = true
    · rw [if_pos hp] at he
      obtain rfl : (0 : Nat) = i := Option.some.inj he
      exact ⟨hp, fun j hj => absurd hj (Nat.not_lt_zero j)⟩
    · rw [if_neg hp] at he
      exact Option.noConfusion he
  | cons c t ih =>
    intro i he
    unfold findSub at he
    by_cases hp : isPrefOf n (c :: t) = true
    · rw [if_pos hp] at he
      obtain rfl : (0 : Nat) = i := Option.some.inj he
      exact ⟨hp, fun j hj => absurd hj (Nat.not_lt_zero j)⟩
    · rw [if_neg hp] at he
      rw [Option.map_eq_some'] at he
      obtain ⟨i', hi', rfl⟩ := he
      obtain ⟨h1, h2⟩ := ih i' hi'
      rw [Bool.not_eq_true] at hp
      refine ⟨by rwa [List.drop_succ_cons], ?_⟩
      intro j hj
      cases j with
      | zero =>
        rw [List.drop_zero]
        exact hp
      | succ j' =>
        rw [List.drop_succ_cons]
        exact h2 j' (by omega)

/-- When `findSub` finds nothing, the pattern occurs nowhere. -/
lemma findSub_none (n : List Char) : ∀ h : List Char, findSub n h = none →
    ∀ j, isPrefOf n (h.drop j) = false := by
  intro h
  induction h with
  | nil =>
    intro he j
    unfold findSub at he
    by_cases hp : isPrefOf n [] = true
    · rw [if_pos hp] at he
      exact Option.noConfusion he
    · rw [Bool.not_eq_true] at hp
      rw [List.drop_nil]
      exact hp
  | cons c t ih =>
    intro he j
    unfold findSub at he
    by_cases hp : isPrefOf n (c :: t) = true
    · rw [if_pos hp] at he
      exact Option.noConfusion he
    · rw [if_neg hp] at he
      have ht : findSub n t = none := by
        cases e : findSub n t with
        | none => rfl
        | some k =>
          rw [e] at he
          exact Option.noConfusion he
      rw [Bool.not_eq_true] at hp
      cases j with
      | zero =>
        rw [List.drop_zero]
        exact hp
      | succ j' =>
        rw [List.drop_succ_cons]
        exact ih ht j'

/-- `findSub` finds the first occurrence. -/
lemma findSub_eq_some (n m : List Char) (i : Nat)
    (hi : isPrefOf n (m.drop i) = true)
    (hmin : ∀ j < i, isPrefOf n (m.drop j) = false) :
    findSub n m = some i := by
  cases e : findSub n m with
  | none =>
    have hf := findSub_none n m e i
    rw [hf] at hi
    exact Bool.noConfusion hi
  | some i' =>
    obtain ⟨h1, h2⟩ := findSub_some n m i' e
    rcases Nat.lt_trichotomy i i' with hlt | heq | hgt
    · rw [h2 i hlt] at hi
      exact Bool.noConfusion hi
    · rw [heq]
    · rw [hmin i' hgt] at h1
      exact Bool.noConfusion h1

/-- The splitter's no-marker branch. -/
lemma split_of_none (t : List Char)
    (h : findSub answerMarker (t.map Char.toUpper) = none) :
    split_worksheet_and_answer t = (pythonStrip t, answerPlaceholder) := by
  unfold split_worksheet_and_answer
  rw [h]

/-- The splitter's marker-found branch. -/
lemma split_of_some (t : List Char) (i : Nat)
    (h : findSub answerMarker (t.map Char.toUpper) = some i) :
    split_worksheet_and_answer t = (pythonStrip (t.take i), pythonStrip (t.drop i)) := by
  unfold split_worksheet_and_answer
  rw [h]

/-- `dropWhile` removes an initial segment. -/
lemma dropWhile_eq_drop (p : Char → Bool) : ∀ l : List Char,
    ∃ a, l.dropWhile p = l.drop a := by
  intro l
  induction l with
  | nil => exact ⟨0, rfl⟩
  | cons c t ih =>
    by_cases hp : p c = true
    · obtain ⟨a, ha⟩ := ih
      exact ⟨a + 1, by rw [List.dropWhile_cons, if_pos hp, ha, List.drop_succ_cons]⟩
    · exact ⟨0, by rw [List.dropWhile_cons, if_neg hp, List.drop_zero]⟩

/-- Stripping yields a contiguous slice of the input. -/
lemma pythonStrip_take_drop (l : List Char) :
    ∃ a b, pythonStrip l = ((l.drop a).take b) := by
  obtain ⟨a, ha⟩ := dropWhile_eq_drop Char.isWhitespace l
  obtain ⟨a2, ha2⟩ := dropWhile_eq_drop Char.isWhitespace (l.drop a).reverse
  refine ⟨a, (l.drop a).length - a2, ?_⟩
  unfold pythonStrip
  rw [ha, ha2]
  have hrd := List.reverse_drop (l := (l.drop a).reverse) (n := a2)
  rw [List.reverse_reverse, List.length_reverse] at hrd
  exact hrd

/-- An occurrence inside a slice is an occurrence in the whole list. -/
lemma markerAt_take_drop (l : List Char) (a b j : Nat)
    (h : markerAt ((l.drop a).take b) j = true) : markerAt l (a + j) = true := by
  unfold markerAt at h ⊢
  rw [List.map_take, List.map_drop, List.drop_take, List.drop_drop] at h
  have := isPrefOf_append answerMarker _
    (((l.map Char.toUpper).drop (a + j)).drop (b - j)) h
  rwa [List.take_append_drop] at this

/-- If the marker occurs nowhere in `l`, it occurs nowhere in the stripped
list. -/
lemma markerAt_strip_false (l : List Char)
    (h : ∀ j, markerAt l j = false) : ∀ j, markerAt (pythonStrip l) j = false := by
  obtain ⟨a, b, hab⟩ := pythonStrip_take_drop l
  intro j
  rw [hab]
  cases e : markerAt ((l.drop a).take b) j with
  | false => rfl
  | true =>
    have hup := markerAt_take_drop l a b j e
    rw [h (a + j)] at hup
    exact Bool.noConfusion hup

/-- An occurrence inside `l.take i` lies before `i` and is an occurrence in
`l`. -/
lemma markerAt_take_lt (l : List Char) (i j : Nat)
    (h : markerAt (l.take i) j = true) : j < i ∧ markerAt l j = true := by
  unfold markerAt at h ⊢
  rw [List.map_take, List.drop_take] at h
  have hj : j < i := by
    by_contra hge
    push_neg at hge
    rw [Nat.sub_eq_zero_of_le hge, List.take_zero] at h
    have hm : isPrefOf answerMarker [] = false := by decide
    rw [hm] at h
    exact Bool.noConfusion h
  refine ⟨hj, ?_⟩
  have := isPrefOf_append answerMarker _
    (((l.map Char.toUpper).drop j).drop (i - j)) h
  rwa [List.take_append_drop] at this

/-- `dropWhile` never lengthens a list. -/
lemma length_dropWhile_le (p : Char → Bool) : ∀ l : List Char,
    (l.dropWhile p).length ≤ l.length := by
  intro l
  induction l with
  | nil => exact Nat.le_refl 0
  | cons c t ih =>
    rw [List.dropWhile_cons]
    by_cases hp : p c = true
    · rw [if_pos hp]
      exact Nat.le_trans ih (Nat.le_succ _)
    · rw [if_neg hp]

/-- `dropWhile` over an append whose right part starts with a failing
element stays inside the left part. -/
lemma dropWhile_append_of_head (p : Char → Bool) (m₁ : List Char) (c : Char)
    (t : List Char) (hc : p c = false) :
    List.dropWhile p (m₁ ++ c :: t) = List.dropWhile p m₁ ++ c :: t := by
  induction m₁ with
  | nil => simp [List.dropWhile_cons, hc]
  | cons a m ih =>
    rw [List.cons_append, List.dropWhile_cons, List.dropWhile_cons]
    by_cases hp : p a = true
    · rw [if_pos hp, if_pos hp, ih]
    · rw [if_neg hp, if_neg hp, List.cons_append]

/-- `dropWhile` is idempotent. -/
lemma dropWhile_idem (p : Char → Bool) : ∀ l : List Char,
    List.dropWhile p (List.dropWhile p l) = List.dropWhile p l := by
  intro l
  induction l with
  | nil => rfl
  | cons c t ih =>
    rw [List.dropWhile_cons]
    by_cases hp : p c = true
    · rw [if_pos hp]
      exact ih
    · rw [if_neg hp, List.dropWhile_cons, if_neg hp]

/-- A `dropWhile` fixed point is empty or starts with a failing element. -/
lemma dropWhile_eq_self_head (p : Char → Bool) (l : List Char)
    (h : List.dropWhile p l = l) : l = [] ∨ ∃ c t, l = c :: t ∧ p c = false := by
  cases l with
  | nil => exact Or.inl rfl
  | cons c t =>
    right
    refine ⟨c, t, rfl, ?_⟩
    by_cases hp : p c = true
    · exfalso
      rw [List.dropWhile_cons, if_pos hp] at h
      have hlen := length_dropWhile_le p t
      rw [h, List.length_cons] at hlen
      omega
    · rwa [Bool.not_eq_true] at hp

/-- Taking a prefix preserves being a `dropWhile` fixed point. -/
lemma dropWhile_take_of_self (p : Char → Bool) (l : List Char)
    (h : List.dropWhile p l = l) (k : Nat) :
    List.dropWhile p (l.take k) = l.take k := by
  rcases dropWhile_eq_self_head p l h with rfl | ⟨c, t, rfl, hc⟩
  · rw [List.take_nil]
    rfl
  · cases k with
    | zero => rfl
    | succ k' =>
      rw [List.take_succ_cons, List.dropWhile_cons, if_neg (by simp [hc])]

/-- Python `strip` is idempotent. -/
lemma pythonStrip_idem (l : List Char) : pythonStrip (pythonStrip l) = pythonStrip l := by
  unfold pythonStrip
  have hLd : List.dropWhile Char.isWhitespace (l.dropWhile Char.isWhitespace)
      = l.dropWhile Char.isWhitespace := dropWhile_idem _ l
  obtain ⟨a, ha⟩ := dropWhile_eq_drop Char.isWhitespace (l.dropWhile Char.isWhitespace).reverse
  have hRtake : ((l.dropWhile Char.isWhitespace).reverse.dropWhile Char.isWhitespace).reverse
      = (l.dropWhile Char.isWhitespace).take ((l.dropWhile Char.isWhitespace).length - a) := by
    rw [ha]
    have hrd := List.reverse_drop (l := (l.dropWhile Char.isWhitespace).reverse) (n := a)
    rw [List.reverse_reverse, List.length_reverse] at hrd
    exact hrd
  have h1 : List.dropWhile Char.isWhitespace
      (((l.dropWhile Char.isWhitespace).reverse.dropWhile Char.isWhitespace).reverse)
      = ((l.dropWhile Char.isWhitespace).reverse.dropWhile Char.isWhitespace).reverse := by
    rw [hRtake]
    exact dropWhile_take_of_self _ _ hLd _
  rw [h1, List.reverse_reverse, dropWhile_idem]

/-- The four whitespace characters are unchanged by `toUpper`. -/
lemma toUpper_of_whitespace (c : Char) (h : c.isWhitespace = true) :
    c.toUpper = c := by
  simp only [Char.isWhitespace, Bool.or_eq_true, decide_eq_true_eq] at h
  rcases h with ((h | h) | h) | h <;> subst h <;> decide

/-- Stripping a text that begins (case-insensitively) with the answer marker
keeps that marker at the front. -/
lemma strip_preserves_marker_head (l : List Char)
    (h : isPrefOf answerMarker (l.map Char.toUpper) = true) :
    ((pythonStrip l).take 11).map Char.toUpper = answerMarker := by
  have hmark11 : answerMarker.length = 11 := by decide
  have htake : (l.map Char.toUpper).take 11 = answerMarker := by
    have ht := isPrefOf_take_eq answerMarker (l.map Char.toUpper) h
    rwa [hmark11] at ht
  have hmap1 : (l.take 11).map Char.toUpper = answerMarker := by
    rw [List.map_take]
    exact htake
  have hlen1 : (l.take 11).length = 11 := by
    rw [← List.length_map (l.take 11) Char.toUpper, hmap1]
    exact hmark11
  obtain ⟨c, t, rfl⟩ : ∃ c t, l = c :: t := by
    cases l with
    | nil =>
      exfalso
      have hm : isPrefOf answerMarker (([] : List Char).map Char.toUpper) = false := by decide
      rw [hm] at h
      exact Bool.noConfusion h
    | cons c t => exact ⟨c, t, rfl⟩
  have hcA : c.toUpper = 'A' := by
    have hh := congrArg List.head? hmap1
    rw [List.head?_map, show answerMarker.head? = some 'A' from by decide,
      show ((c :: t).take 11).head? = some c from rfl, Option.map_some'] at hh
    exact Option.some.inj hh
  have hcws : c.isWhitespace = false := by
    by_cases hw : c.isWhitespace = true
    · exfalso
      have hid := toUpper_of_whitespace c hw
      rw [hid] at hcA
      subst hcA
      have hAws : 'A'.isWhitespace = false := by decide
      rw [hAws] at hw
      exact Bool.noConfusion hw
    · rwa [Bool.not_eq_true] at hw
  obtain ⟨d, hd⟩ : ∃ d, ((c :: t).take 11).getLast? = some d := by
    cases e : ((c :: t).take 11).getLast? with
    | some d => exact ⟨d, rfl⟩
    | none =>
      exfalso
      rw [List.getLast?_eq_none_iff] at e
      rw [e] at hlen1
      exact absurd hlen1 (by decide)
  have hdU : d.toUpper = ':' := by
    have hh := congrArg List.getLast? hmap1
    rw [List.getLast?_map, hd, show answerMarker.getLast? = some ':' from by decide,
      Option.map_some'] at hh
    exact Option.some.inj hh
  have hdws : d.isWhitespace = false := by
    by_cases hw : d.isWhitespace = true
    · exfalso
      have hid := toUpper_of_whitespace d hw
      rw [hid] at hdU
      subst hdU
      have hCws : ':'.isWhitespace = false := by decide
      rw [hCws] at hw
      exact Bool.noConfusion hw
    · rwa [Bool.not_eq_true] at hw
  obtain ⟨t₂, hrev⟩ : ∃ t₂, ((c :: t).take 11).reverse = d :: t₂ := by
    cases e : ((c :: t).take 11).reverse with
    | cons x xs =>
      have hh := List.head?_reverse ((c :: t).take 11)
      rw [e, hd, List.head?_cons] at hh
      obtain rfl := Option.some.inj hh
      exact ⟨xs, rfl⟩
    | nil =>
      exfalso
      have hh := List.head?_reverse ((c :: t).take 11)
      rw [e, hd] at hh
      exact Option.noConfusion hh
  have hstrip1 : List.dropWhile Char.isWhitespace (c :: t) = c :: t := by
    rw [List.dropWhile_cons, if_neg (by simp [hcws])]
  have hsplit : (c :: t).take 11 ++ (c :: t).drop 11 = c :: t :=
    List.take_append_drop 11 (c :: t)
  unfold pythonStrip
  rw [hstrip1, ← hsplit, List.reverse_append, hrev,
    dropWhile_append_of_head Char.isWhitespace _ d _ hdws, List.reverse_append,
    show (d :: t₂).reverse = (c :: t).take 11 from by rw [← hrev, List.reverse_reverse],
    List.take_left' hlen1]
  exact hmap1

/-- The worksheet body contains no case-insensitive occurrence of the
answer marker. -/
lemma split_body_no_marker (text : List Char) :
    ∀ j, markerAt (split_worksheet_and_answer text).1 j = false := by
  cases e : findSub answerMarker (text.map Char.toUpper) with
  | none =>
    rw [split_of_none text e]
    exact markerAt_strip_false text (fun j => findSub_none answerMarker _ e j)
  | some i =>
    rw [split_of_some text i e]
    obtain ⟨_, h2⟩ := findSub_some answerMarker (text.map Char.toUpper) i e
    apply markerAt_strip_false (text.take i)
    intro k
    cases ek : markerAt (text.take i) k with
    | false => rfl
    | true =>
      exfalso
      obtain ⟨hk, hkm⟩ := markerAt_take_lt text i k ek
      unfold markerAt at hkm
      rw [h2 k hk] at hkm
      exact Bool.noConfusion hkm

/-- C6: the splitter finds the first case-insensitive occurrence of
`"ANSWER KEY:"`; at first occurrence `i` it returns the trimmed halves cut at
`i`, and with no occurrence it returns the trimmed text and the fixed
placeholder; being a total function it never fails. -/
theorem C6_split_worksheet_and_answer_spec (text : List Char) :
    (∀ i, markerAt text i = true → (∀ j < i, markerAt text j = false) →
      split_worksheet_and_answer text =
        (pythonStrip (text.take i), pythonStrip (text.drop i))) ∧
    ((∀ j, j ≤ text.length → markerAt text j = false) →
      split_worksheet_and_answer text = (pythonStrip text, answerPlaceholder)) := by
  constructor
  · intro i hi hmin
    apply split_of_some
    apply findSub_eq_some
    · exact hi
    · intro j hj
      exact hmin j hj
  · intro hb
    apply split_of_none
    cases e : findSub answerMarker (text.map Char.toUpper) with
    | none => rfl
    | some i =>
      exfalso
      obtain ⟨h1, _⟩ := findSub_some answerMarker (text.map Char.toUpper) i e
      by_cases hle : i ≤ text.length
      · have hf := hb i hle
        unfold markerAt at hf
        rw [hf] at h1
        exact Bool.noConfusion h1
      · push_neg at hle
        have hnil : (text.map Char.toUpper).drop i = [] :=
          List.drop_eq_nil_of_le (by rw [List.length_map]; omega)
        rw [hnil] at h1
        have hm : isPrefOf answerMarker [] = false := by decide
        rw [hm] at h1
        exact Bool.noConfusion h1

theorem C6_split_worksheet_and_answer_spec_witness :
    (markerAt "PASSAGE:\nfoo\nANSWER KEY:\n1) A".data 13 = true ∧
      split_worksheet_and_answer "PASSAGE:\nfoo\nANSWER KEY:\n1) A".data =
        ("PASSAGE:\nfoo".data, "ANSWER KEY:\n1) A".data)) ∧
    split_worksheet_and_answer "no marker here".data =
      ("no marker here".data, answerPlaceholder) := by
  refine ⟨⟨by decide, ?_⟩, ?_⟩
  · have hs := (C6_split_worksheet_and_answer_spec
      "PASSAGE:\nfoo\nANSWER KEY:\n1) A".data).1 13 (by decide) (by decide)
    rw [hs]
    decide
  · have hs := (C6_split_worksheet_and_answer_spec
      "no marker here".data).2 (by decide)
    rw [hs]
    decide

/-- C7, amended: the body contains no case-insensitive occurrence of the
marker (hence nothing after it); the answer key begins with the marker *up to
letter case* — not necessarily with the literal marker text, since the
original casing is preserved — or is the placeholder, which itself starts
with the literal marker; and re-splitting the body returns the body with the
placeholder (idempotence after marker removal). -/
theorem C7_split_guarantees (text : List Char) :
    (∀ j, markerAt (split_worksheet_and_answer text).1 j = false) ∧
    ((split_worksheet_and_answer text).2.take 11).map Char.toUpper = answerMarker ∧
    split_worksheet_and_answer (split_worksheet_and_answer text).1 =
      ((split_worksheet_and_answer text).1, answerPlaceholder) := by
  refine ⟨split_body_no_marker text, ?_, ?_⟩
  · cases e : findSub answerMarker (text.map Char.toUpper) with
    | none =>
      rw [split_of_none text e]
      show (answerPlaceholder.take 11).map Char.toUpper = answerMarker
      decide
    | some i =>
      rw [split_of_some text i e]
      show ((pythonStrip (text.drop i)).take 11).map Char.toUpper = answerMarker
      obtain ⟨h1, _⟩ := findSub_some answerMarker (text.map Char.toUpper) i e
      apply strip_preserves_marker_head
      rw [List.map_drop]
      exact h1
  · have hbody := split_body_no_marker text
    have hnone : findSub answerMarker
        ((split_worksheet_and_answer text).1.map Char.toUpper) = none := by
      cases e : findSub answerMarker
          ((split_worksheet_and_answer text).1.map Char.toUpper) with
      | none => rfl
      | some i =>
        exfalso
        obtain ⟨h1, _⟩ := findSub_some answerMarker _ i e
        have hf := hbody i
        unfold markerAt at hf
        rw [hf] at h1
        exact Bool.noConfusion h1
    rw [split_of_none _ hnone]
    have hstrip : pythonStrip (split_worksheet_and_answer text).1 =
        (split_worksheet_and_answer text).1 := by
      cases e : findSub answerMarker (text.map Char.toUpper) with
      | none =>
        rw [split_of_none text e]
        exact pythonStrip_idem text
      | some i =>
        rw [split_of_some text i e]
        exact pythonStrip_idem (text.take i)
    rw [hstrip]

/-- C7, refuting the literal reading: on input `"answer key:\n1) A"` the
returned answer key is the unchanged lower-case text, which begins neither
with the literal marker text `"ANSWER KEY:"` nor with the placeholder. -/
theorem C7_split_guarantees_counterexample :
    (split_worksheet_and_answer "answer key:\n1) A".data).2 = "answer key:\n1) A".data ∧
    isPrefOf "ANSWER KEY:".data (split_worksheet_and_answer "answer key:\n1) A".data).2 = false ∧
    isPrefOf answerPlaceholder (split_worksheet_and_answer "answer key:\n1) A".data).2 = false := by
  refine ⟨by decide, by decide, by decide⟩
